import Mathlib

/- Shallow embedding of the classifier native linear-algebra core
   (src/ext/classifier: linalg.h, vector.c, matrix.c, svd.c,
   incremental_svd.c).  Machine doubles are modelled as real numbers;
   C functions that raise a Ruby ArgumentError are modelled in the
   Except String monad.  Matrices are dimension-tagged entry functions
   (MAT_AT(m, i, j) is m.entry i j); writes outside the stored block are
   never observed. -/

noncomputable section

/-- Vector value: size, contents, orientation flag.
Embeds struct CVector from linalg.h. -/
structure CVector where
  size : ℕ
  data : ℕ → ℝ
  is_col : Bool

/-- Matrix value: rows, cols, row-major entries as a function.
Embeds struct CMatrix from linalg.h. -/
structure CMatrix where
  rows : ℕ
  cols : ℕ
  entry : ℕ → ℕ → ℝ

/-- Epsilon for numerical comparisons, linalg.h line 10. -/
def CLASSIFIER_EPSILON : ℝ := 1e-10

/-- Euclidean norm, cvector_magnitude (vector.c lines 40-47). -/
def cvector_magnitude (v : CVector) : ℝ :=
  Real.sqrt (∑ i in Finset.range v.size, v.data i * v.data i)

/-- Normalized copy, cvector_normalize (vector.c lines 50-65): a fresh
zero-filled vector with the orientation copied; if the magnitude is
> CLASSIFIER_EPSILON each entry is divided by it, otherwise the fresh
zero vector is returned as is. -/
def cvector_normalize (v : CVector) : CVector :=
  let mag := cvector_magnitude v
  if mag ≤ CLASSIFIER_EPSILON then
    { size := v.size, data := fun _ => 0, is_col := v.is_col }
  else
    { size := v.size
      data := fun i => if i < v.size then v.data i / mag else 0
      is_col := v.is_col }

/-- Vector subtraction a - b, cvector_subtract (incremental_svd.c lines
67-80); raises when the sizes differ, and the fresh result keeps the
default row orientation of cvector_alloc. -/
def cvector_subtract (a b : CVector) : Except String CVector :=
  if a.size ≠ b.size then Except.error "Vector sizes must match"
  else Except.ok
    { size := a.size, data := fun i => a.data i - b.data i, is_col := false }

/-- Transpose, cmatrix_transpose (matrix.c lines 40-49). -/
def cmatrix_transpose (m : CMatrix) : CMatrix :=
  { rows := m.cols, cols := m.rows, entry := fun i j => m.entry j i }

/-- Matrix product, cmatrix_multiply (matrix.c lines 52-71); raises when
a.cols differs from b.rows. -/
def cmatrix_multiply (a b : CMatrix) : Except String CMatrix :=
  if a.cols ≠ b.rows then
    Except.error "Matrix dimensions do not match for multiplication"
  else Except.ok
    { rows := a.rows
      cols := b.cols
      entry := fun i j => ∑ k in Finset.range a.cols, a.entry i k * b.entry k j }

/-- Matrix-vector product, cmatrix_multiply_vector (matrix.c lines
74-91); raises when m.cols differs from v.size. -/
def cmatrix_multiply_vector (m : CMatrix) (v : CVector) : Except String CVector :=
  if m.cols ≠ v.size then
    Except.error "Matrix columns must match vector size"
  else Except.ok
    { size := m.rows
      data := fun i => ∑ j in Finset.range m.cols, m.entry i j * v.data j
      is_col := false }

/-- Column extension [m | col], cmatrix_extend_column (incremental_svd.c
lines 18-36); raises when m.rows differs from col.size. -/
def cmatrix_extend_column (m : CMatrix) (col : CVector) : Except String CMatrix :=
  if m.rows ≠ col.size then
    Except.error "Matrix rows must match vector size"
  else Except.ok
    { rows := m.rows
      cols := m.cols + 1
      entry := fun i j => if j = m.cols then col.data i else m.entry i j }

/-- Identity matrix, cmatrix_identity (svd.c lines 15-22). -/
def cmatrix_identity (n : ℕ) : CMatrix :=
  { rows := n, cols := n, entry := fun i j => if i = j then 1 else 0 }

/-- Projection U^T * r of a raw vector onto the column space of u.  This
is the inner loop shared by cbatch_project (incremental_svd.c lines
104-110) and step 1 of incremental_update (incremental_svd.c lines
157-164). -/
def project_coeffs (u : CMatrix) (c : CVector) : CVector :=
  { size := u.cols
    data := fun j => ∑ i in Finset.range u.rows, u.entry i j * c.data i
    is_col := false }

/-- Batch projection of raw vectors through U^T, cbatch_project
(incremental_svd.c lines 87-114): vectors are processed in order and the
first one whose size differs from u.rows raises. -/
def cbatch_project (u : CMatrix) (raw_vectors : List CVector) :
    Except String (List CVector) :=
  raw_vectors.mapM fun raw =>
    if raw.size ≠ u.rows then
      Except.error "Vector size must match matrix rows"
    else Except.ok (project_coeffs u raw)

/-- Bordered matrix K for Brand's algorithm,
build_k_matrix_with_growth (incremental_svd.c lines 121-136): diag(s) in
the top-left block, m_vec in the last column, p_norm bottom-right, zeros
elsewhere. -/
def build_k_matrix_with_growth (s m_vec : CVector) (p_norm : ℝ) : CMatrix :=
  { rows := s.size + 1
    cols := s.size + 1
    entry := fun i j =>
      if i < s.size ∧ j = i then s.data i
      else if i < s.size ∧ j = s.size then m_vec.data i
      else if i = s.size ∧ j = s.size then p_norm
      else 0 }

/-- Jacobi rotation angle from svd.c lines 110-118: near-equal diagonal
entries get a quarter-turn with the sign of the numerator, otherwise the
arctangent formula is used. -/
def jacobiAngle (numerator denominator : ℝ) : ℝ :=
  if |denominator| < CLASSIFIER_EPSILON then
    if 0 ≤ numerator then Real.pi / 4 else -(Real.pi / 4)
  else Real.arctan (numerator / denominator) / 2

/-- One Jacobi rotation applied to Q (as a similarity transform on the
p, r plane) and accumulated into V, apply_jacobi_rotation (svd.c lines
33-62). -/
def apply_jacobi_rotation (q v : CMatrix) (p r : ℕ) (cosine sine : ℝ) :
    CMatrix × CMatrix :=
  let q1 : CMatrix :=
    { q with entry := fun i j =>
        if j = p then cosine * q.entry i p - sine * q.entry i r
        else if j = r then sine * q.entry i p + cosine * q.entry i r
        else q.entry i j }
  let q2 : CMatrix :=
    { q1 with entry := fun i j =>
        if i = p then cosine * q1.entry p j - sine * q1.entry r j
        else if i = r then sine * q1.entry p j + cosine * q1.entry r j
        else q1.entry i j }
  let v2 : CMatrix :=
    { v with entry := fun i j =>
        if j = p then cosine * v.entry i p - sine * v.entry i r
        else if j = r then sine * v.entry i p + cosine * v.entry i r
        else v.entry i j }
  (q2, v2)

/-- One rotation of the inner pair loop, svd.c lines 105-123. -/
def rotateStep (qv : CMatrix × CMatrix) (pr : ℕ × ℕ) : CMatrix × CMatrix :=
  let angle := jacobiAngle (2 * qv.1.entry pr.1 pr.2)
                           (qv.1.entry pr.1 pr.1 - qv.1.entry pr.2 pr.2)
  apply_jacobi_rotation qv.1 qv.2 pr.1 pr.2 (Real.cos angle) (Real.sin angle)

/-- Row-major order of the off-diagonal pairs p < r visited by one
sweep, svd.c lines 103-104. -/
def pairList (n : ℕ) : List (ℕ × ℕ) :=
  (List.range n).flatMap fun p => ((List.range n).drop (p + 1)).map fun r => (p, r)

/-- One full sweep of Jacobi rotations, svd.c lines 103-125. -/
def jacobiSweep (q v : CMatrix) : CMatrix × CMatrix :=
  (pairList q.rows).foldl rotateStep (q, v)

/-- Sum of the absolute diagonal movements that exceed 0.001, svd.c
lines 131-137. -/
def sweepDiff (q prevQ : CMatrix) : ℝ :=
  ∑ i in Finset.range q.rows,
    (if |q.entry i i - prevQ.entry i i| > 0.001 then
       |q.entry i i - prevQ.entry i i| else 0)

/-- Sweep loop with early convergence exit, svd.c lines 101-146: the
first sweep records the diagonal, later sweeps stop once the filtered
diagonal movement is at most 0.001.  The fuel is SVD_MAX_SWEEPS = 20. -/
def jacobiIter : ℕ → CMatrix → CMatrix → Option CMatrix → CMatrix × CMatrix
  | 0, q, v, _ => (q, v)
  | fuel + 1, q, v, prevQ =>
    let qv := jacobiSweep q v
    match prevQ with
    | none => jacobiIter fuel qv.1 qv.2 (some qv.1)
    | some pq =>
      if sweepDiff qv.1 pq ≤ 0.001 then qv
      else jacobiIter fuel qv.1 qv.2 (some qv.1)

/-- Gram matrix of the Jacobi solver, svd.c lines 81-93: A^T*A when
rows ≥ cols, otherwise A*A^T (the transposed branch). -/
def jacobiWork (a : CMatrix) : Except String CMatrix :=
  if a.cols ≤ a.rows then cmatrix_multiply (cmatrix_transpose a) a
  else cmatrix_multiply a (cmatrix_transpose a)

/-- Final (Q, V) pair after the sweep loop starting from the Gram matrix
and the identity, svd.c lines 95-146. -/
def jacobiFinalQV (w : CMatrix) : CMatrix × CMatrix :=
  jacobiIter 20 w (cmatrix_identity w.rows) none

/-- Jacobi SVD decomposition, jacobi_svd (svd.c lines 74-181): Gram
matrix, sweep loop, clamped square roots of the diagonal, and the
recombination U = source * V * S^(-1) with source = A (or A^T in the
transposed branch). -/
def jacobi_svd (a : CMatrix) : Except String (CMatrix × CMatrix × CVector) := do
  let work ← jacobiWork a
  let qv := jacobiFinalQV work
  let s : CVector :=
    { size := work.rows
      data := fun i => if 0 < qv.1.entry i i then Real.sqrt (qv.1.entry i i) else 0
      is_col := false }
  let sInv : CMatrix :=
    { rows := work.rows
      cols := work.rows
      entry := fun i j =>
        if i = j then (if CLASSIFIER_EPSILON < s.data i then 1 / s.data i else 0)
        else 0 }
  let source := if a.cols ≤ a.rows then a else cmatrix_transpose a
  let temp ← cmatrix_multiply source qv.2
  let u ← cmatrix_multiply temp sInv
  pure (u, qv.2, s)

/-- Conversion of the int max_rank argument to size_t in the truncation
guard of incremental_update (incremental_svd.c line 201): value modulo
2^64. -/
def toSizeT (i : ℤ) : ℕ := (i % (2 : ℤ) ^ 64).toNat

/-- Residual p = c - U * (U^T * c) of incremental_update steps 1-2
(incremental_svd.c lines 155-168), written out so that it names the ok
value produced by cvector_subtract there. -/
def residualVec (u : CMatrix) (c : CVector) : CVector :=
  { size := c.size
    data := fun i =>
      c.data i - ∑ j in Finset.range u.cols, u.entry i j * (project_coeffs u c).data j
    is_col := false }

/-- Euclidean norm of the residual, p_norm of incremental_update
(incremental_svd.c line 169). -/
def residual_norm (u : CMatrix) (c : CVector) : ℝ :=
  cvector_magnitude (residualVec u c)

/-- Normalized residual p_hat of incremental_update step 3
(incremental_svd.c lines 176-181): the residual scaled by the
reciprocal of its norm. -/
def residual_hat (u : CMatrix) (c : CVector) : CVector :=
  { size := u.rows
    data := fun i => (residualVec u c).data i * (1 / residual_norm u c)
    is_col := false }

/-- Brand's incremental SVD update, incremental_update
(incremental_svd.c lines 149-231): project, take the residual, and
either grow the factorization through a Jacobi solve of the bordered
matrix (truncating when the new rank exceeds (size_t)max_rank), or
return fresh copies of (u, s) when the residual norm is within
epsilon. -/
def incremental_update (u : CMatrix) (s c : CVector) (max_rank : ℤ)
    (epsilon : ℝ) : Except String (CMatrix × CVector) := do
  let m_vec := project_coeffs u c
  let u_times_m ← cmatrix_multiply_vector u m_vec
  let p ← cvector_subtract c u_times_m
  let p_norm := cvector_magnitude p
  if p_norm > epsilon then
    let p_hat : CVector :=
      { size := u.rows, data := fun i => p.data i * (1 / p_norm), is_col := false }
    let k_mat := build_k_matrix_with_growth s m_vec p_norm
    let svd ← jacobi_svd k_mat
    let u_extended ← cmatrix_extend_column u p_hat
    let u_new ← cmatrix_multiply u_extended svd.1
    if svd.2.2.size > toSizeT max_rank then
      pure ({ rows := u_new.rows
              cols := toSizeT max_rank
              entry := fun i j => u_new.entry i j },
            { size := toSizeT max_rank
              data := fun i => svd.2.2.data i
              is_col := false })
    else
      pure (u_new, svd.2.2)
  else
    pure ({ rows := u.rows, cols := u.cols, entry := fun i j => u.entry i j },
          { size := s.size, data := fun i => s.data i, is_col := false })

/-- Boolean success test for an Except result. -/
def exceptIsOk {ε α : Type} : Except ε α → Bool
  | Except.ok _ => true
  | Except.error _ => false

/-- Size of the Gram matrix iterated by the Jacobi solver:
min(rows, cols) written with the branch condition of jacobiWork. -/
def gramSize (a : CMatrix) : ℕ := if a.cols ≤ a.rows then a.cols else a.rows

/-- Row count of the recombination source of the Jacobi solver:
max(rows, cols) written with the branch condition of jacobiWork. -/
def coGramSize (a : CMatrix) : ℕ := if a.cols ≤ a.rows then a.rows else a.cols

/-- Concrete 1x1 matrix [[1]]. -/
def uI : CMatrix := { rows := 1, cols := 1, entry := fun _ _ => 1 }

/-- Concrete length-1 vector [1]. -/
def sI : CVector := { size := 1, data := fun _ => 1, is_col := false }

/-- Concrete length-1 vector [0]. -/
def cZ : CVector := { size := 1, data := fun _ => 0, is_col := false }

/-- Concrete 3x1 matrix with the single column [1,0,0]. -/
def u4 : CMatrix := { rows := 3, cols := 1, entry := fun i _ => if i = 0 then 1 else 0 }

/-- Concrete length-3 vector [0,1,0]. -/
def c4 : CVector := { size := 3, data := fun i => if i = 1 then 1 else 0, is_col := false }

/-- Concrete 1x3 matrix (one row, three columns). -/
def wideA : CMatrix := { rows := 1, cols := 3, entry := fun _ _ => 1 }

/-- Concrete length-2 vector [3,4]. -/
def v34 : CVector := { size := 2, data := fun i => if i = 0 then 3 else 4, is_col := false }

/-- Concrete length-2 vector [5,6]. -/
def v56 : CVector := { size := 2, data := fun i => if i = 0 then 5 else 6, is_col := false }

/-- Concrete length-1 vector [1e-11], below the normalize threshold. -/
def vTiny : CVector := { size := 1, data := fun _ => 1e-11, is_col := false }

/-- Concrete 2x2 identity matrix used as U in the batch projection
test. -/
def u8 : CMatrix := { rows := 2, cols := 2, entry := fun i j => if i = j then 1 else 0 }

end

/-- Bind of a successful Except result reduces to the continuation. -/
lemma ok_bind {ε α β : Type} (x : α) (f : α → Except ε β) :
    (Except.ok x : Except ε α) >>= f = f x := rfl

/-- Bind of a failed Except result propagates the error. -/
lemma error_bind {ε α β : Type} (e : ε) (f : α → Except ε β) :
    (Except.error e : Except ε α) >>= f = Except.error e := rfl

/-- Pure in the Except monad is the ok constructor. -/
lemma pure_eq_ok {ε α : Type} (x : α) : (pure x : Except ε α) = Except.ok x := rfl

/-- Rotations never change the dimensions of the folded pair. -/
lemma foldl_rotate_dims (l : List (ℕ × ℕ)) : ∀ qv : CMatrix × CMatrix,
    (l.foldl rotateStep qv).1.rows = qv.1.rows ∧
    (l.foldl rotateStep qv).1.cols = qv.1.cols ∧
    (l.foldl rotateStep qv).2.rows = qv.2.rows ∧
    (l.foldl rotateStep qv).2.cols = qv.2.cols := by
  induction l with
  | nil => exact fun qv => ⟨rfl, rfl, rfl, rfl⟩
  | cons pr l ih => exact fun qv => ih (rotateStep qv pr)

/-- A sweep never changes the dimensions of Q or V. -/
lemma jacobiSweep_dims (q v : CMatrix) :
    (jacobiSweep q v).1.rows = q.rows ∧ (jacobiSweep q v).1.cols = q.cols ∧
    (jacobiSweep q v).2.rows = v.rows ∧ (jacobiSweep q v).2.cols = v.cols :=
  foldl_rotate_dims (pairList q.rows) (q, v)

/-- The sweep loop never changes the dimensions of Q or V. -/
lemma jacobiIter_dims : ∀ (fuel : ℕ) (q v : CMatrix) (pq : Option CMatrix),
    (jacobiIter fuel q v pq).1.rows = q.rows ∧
    (jacobiIter fuel q v pq).1.cols = q.cols ∧
    (jacobiIter fuel q v pq).2.rows = v.rows ∧
    (jacobiIter fuel q v pq).2.cols = v.cols := by
  intro fuel
  induction fuel with
  | zero => exact fun q v pq => ⟨rfl, rfl, rfl, rfl⟩
  | succ n ih =>
    intro q v pq
    cases pq with
    | none =>
      have hs := jacobiSweep_dims q v
      have hi := ih (jacobiSweep q v).1 (jacobiSweep q v).2 (some (jacobiSweep q v).1)
      simp only [jacobiIter]
      exact ⟨hi.1.trans hs.1, hi.2.1.trans hs.2.1,
             hi.2.2.1.trans hs.2.2.1, hi.2.2.2.trans hs.2.2.2⟩
    | some pq =>
      have hs := jacobiSweep_dims q v
      simp only [jacobiIter]
      split
      · exact hs
      · have hi := ih (jacobiSweep q v).1 (jacobiSweep q v).2 (some (jacobiSweep q v).1)
        exact ⟨hi.1.trans hs.1, hi.2.1.trans hs.2.1,
               hi.2.2.1.trans hs.2.2.1, hi.2.2.2.trans hs.2.2.2⟩

/-- The final (Q, V) pair keeps the dimensions of the Gram matrix. -/
lemma jacobiFinalQV_dims (w : CMatrix) :
    (jacobiFinalQV w).1.rows = w.rows ∧ (jacobiFinalQV w).1.cols = w.cols ∧
    (jacobiFinalQV w).2.rows = w.rows ∧ (jacobiFinalQV w).2.cols = w.rows :=
  jacobiIter_dims 20 w (cmatrix_identity w.rows) none

/-- The Gram-matrix step of the Jacobi solver never fails and yields a
square matrix of side gramSize. -/
lemma jacobiWork_ok (a : CMatrix) :
    ∃ w, jacobiWork a = Except.ok w ∧ w.rows = gramSize a ∧ w.cols = gramSize a := by
  by_cases horient : a.cols ≤ a.rows
  · unfold jacobiWork cmatrix_multiply gramSize
    rw [if_pos horient, if_pos horient, if_neg (show ¬ (cmatrix_transpose a).cols ≠ a.rows
      from fun hne => hne rfl)]
    exact ⟨_, rfl, rfl, rfl⟩
  · unfold jacobiWork cmatrix_multiply gramSize
    rw [if_neg horient, if_neg horient, if_neg (show ¬ a.cols ≠ (cmatrix_transpose a).rows
      from fun hne => hne rfl)]
    exact ⟨_, rfl, rfl, rfl⟩

/-- The Jacobi solver never fails; the returned U is coGramSize-by-
gramSize and the singular-value vector has gramSize entries. -/
lemma jacobi_svd_ok (a : CMatrix) :
    ∃ u v s, jacobi_svd a = Except.ok (u, v, s) ∧
      u.rows = coGramSize a ∧ u.cols = gramSize a ∧ s.size = gramSize a := by
  obtain ⟨w, hw, hwr, hwc⟩ := jacobiWork_ok a
  have hqv := jacobiFinalQV_dims w
  have hvr : (jacobiFinalQV w).2.rows = gramSize a := hqv.2.2.1.trans hwr
  have hvc : (jacobiFinalQV w).2.cols = gramSize a := hqv.2.2.2.trans hwr
  unfold jacobi_svd
  rw [hw]
  simp only [ok_bind]
  by_cases horient : a.cols ≤ a.rows
  · have hga : gramSize a = a.cols := if_pos horient
    have hco : coGramSize a = a.rows := if_pos horient
    simp only [horient, if_true, cmatrix_multiply, hvr, hvc, hga, hwr, ne_eq,
      not_true_eq_false, if_false, ok_bind, pure_eq_ok]
    refine ⟨_, _, _, rfl, ?_, rfl, rfl⟩
    rw [hco]
  · have hga : gramSize a = a.rows := if_neg horient
    have hco : coGramSize a = a.cols := if_neg horient
    simp only [horient, if_false, cmatrix_multiply, cmatrix_transpose, hvr, hvc, hga,
      hwr, ne_eq, not_true_eq_false, ok_bind, pure_eq_ok]
    refine ⟨_, _, _, rfl, ?_, rfl, rfl⟩
    rw [hco]

/-- With a size-mismatched document vector, incremental_update fails in
cvector_subtract. -/
lemma incremental_update_mismatch (u : CMatrix) (s c : CVector) (mr : ℤ) (ε : ℝ)
    (hc : c.size ≠ u.rows) :
    incremental_update u s c mr ε = Except.error "Vector sizes must match" := by
  simp [incremental_update, cmatrix_multiply_vector, cvector_subtract, project_coeffs,
    hc, ok_bind, error_bind]

/-- With matching document size and a residual within epsilon,
incremental_update returns fresh copies of (u, s). -/
lemma incremental_update_caseB (u : CMatrix) (s c : CVector) (mr : ℤ) (ε : ℝ)
    (hc : c.size = u.rows) (hp : ¬ residual_norm u c > ε) :
    incremental_update u s c mr ε =
      Except.ok ({ rows := u.rows, cols := u.cols, entry := fun i j => u.entry i j },
                 { size := s.size, data := fun i => s.data i, is_col := false }) := by
  have h1 : cmatrix_multiply_vector u (project_coeffs u c) = Except.ok
      { size := u.rows
        data := fun i => ∑ j in Finset.range u.cols, u.entry i j * (project_coeffs u c).data j
        is_col := false } := by
    unfold cmatrix_multiply_vector
    rw [if_neg (show ¬ u.cols ≠ (project_coeffs u c).size from fun h => h rfl)]
  have h2 : cvector_subtract c
      { size := u.rows
        data := fun i => ∑ j in Finset.range u.cols, u.entry i j * (project_coeffs u c).data j
        is_col := false } = Except.ok (residualVec u c) := by
    unfold cvector_subtract
    rw [if_neg (show ¬ c.size ≠ u.rows from fun h => h hc)]
    rfl
  have hp2 : ¬ cvector_magnitude (residualVec u c) > ε := hp
  simp only [incremental_update]
  rw [h1]
  simp only [ok_bind]
  rw [h2]
  simp only [ok_bind]
  rw [if_neg hp2]
  rfl

/-- With matching document size and a residual exceeding epsilon,
incremental_update reduces to the rank-growth tail of Case A. -/
lemma incremental_update_caseA (u : CMatrix) (s c : CVector) (mr : ℤ) (ε : ℝ)
    (hc : c.size = u.rows) (hp : residual_norm u c > ε) :
    incremental_update u s c mr ε = (do
      let svd ← jacobi_svd
        (build_k_matrix_with_growth s (project_coeffs u c) (residual_norm u c))
      let u_extended ← cmatrix_extend_column u (residual_hat u c)
      let u_new ← cmatrix_multiply u_extended svd.1
      if svd.2.2.size > toSizeT mr then
        pure ({ rows := u_new.rows
                cols := toSizeT mr
                entry := fun i j => u_new.entry i j },
              { size := toSizeT mr
                data := fun i => svd.2.2.data i
                is_col := false })
      else
        pure (u_new, svd.2.2)) := by
  have h1 : cmatrix_multiply_vector u (project_coeffs u c) = Except.ok
      { size := u.rows
        data := fun i => ∑ j in Finset.range u.cols, u.entry i j * (project_coeffs u c).data j
        is_col := false } := by
    unfold cmatrix_multiply_vector
    rw [if_neg (show ¬ u.cols ≠ (project_coeffs u c).size from fun h => h rfl)]
  have h2 : cvector_subtract c
      { size := u.rows
        data := fun i => ∑ j in Finset.range u.cols, u.entry i j * (project_coeffs u c).data j
        is_col := false } = Except.ok (residualVec u c) := by
    unfold cvector_subtract
    rw [if_neg (show ¬ c.size ≠ u.rows from fun h => h hc)]
    rfl
  have hp2 : cvector_magnitude (residualVec u c) > ε := hp
  simp only [incremental_update]
  rw [h1]
  simp only [ok_bind]
  rw [h2]
  simp only [ok_bind]
  rw [if_pos hp2]
  rfl

/-- Extending u with its normalized residual never fails. -/
lemma cmatrix_extend_column_hat (u : CMatrix) (c : CVector) :
    cmatrix_extend_column u (residual_hat u c) = Except.ok
      { rows := u.rows
        cols := u.cols + 1
        entry := fun i j =>
          if j = u.cols then (residual_hat u c).data i else u.entry i j } := by
  unfold cmatrix_extend_column
  rw [if_neg (show ¬ u.rows ≠ (residual_hat u c).size from fun h => h rfl)]

/-- Multiplying the extended matrix succeeds exactly when the inner
dimensions agree; success case. -/
lemma cmatrix_multiply_exthat (u : CMatrix) (c : CVector) (b : CMatrix)
    (h : u.cols + 1 = b.rows) :
    cmatrix_multiply
      { rows := u.rows
        cols := u.cols + 1
        entry := fun i j =>
          if j = u.cols then (residual_hat u c).data i else u.entry i j } b
    = Except.ok
      { rows := u.rows
        cols := b.cols
        entry := fun i j => ∑ k in Finset.range (u.cols + 1),
          (if k = u.cols then (residual_hat u c).data i else u.entry i k) * b.entry k j } := by
  unfold cmatrix_multiply
  rw [if_neg (fun hne => hne h)]

/-- Multiplying the extended matrix fails when the inner dimensions
disagree. -/
lemma cmatrix_multiply_exthat_err (u : CMatrix) (c : CVector) (b : CMatrix)
    (h : u.cols + 1 ≠ b.rows) :
    cmatrix_multiply
      { rows := u.rows
        cols := u.cols + 1
        entry := fun i j =>
          if j = u.cols then (residual_hat u c).data i else u.entry i j } b
    = Except.error "Matrix dimensions do not match for multiplication" := by
  unfold cmatrix_multiply
  rw [if_pos h]

/-- The residual of the zero document against the 1x1 factorization is
zero. -/
lemma residual_uI_cZ : residual_norm uI cZ = 0 := by
  norm_num [residual_norm, residualVec, project_coeffs, cvector_magnitude, uI, cZ,
    Finset.sum_range_one, Real.sqrt_zero]

/-- The residual of the document [1] against the 1x1 identity
factorization is zero. -/
lemma residual_uI_sI : residual_norm uI sI = 0 := by
  norm_num [residual_norm, residualVec, project_coeffs, cvector_magnitude, uI, sI,
    Finset.sum_range_one, Real.sqrt_zero]

/-- The residual of the orthogonal document [0,1,0] against the single
column [1,0,0] has norm one. -/
lemma residual_u4_c4 : residual_norm u4 c4 = 1 := by
  norm_num [residual_norm, residualVec, project_coeffs, cvector_magnitude, u4, c4,
    Finset.sum_range_succ, Finset.sum_range_zero, Finset.sum_range_one, Real.sqrt_one]

/-- The vector [3,4] has magnitude 5. -/
lemma magnitude_v34 : cvector_magnitude v34 = 5 := by
  have h : (∑ i in Finset.range v34.size, v34.data i * v34.data i) = 5 ^ 2 := by
    norm_num [v34, Finset.sum_range_succ, Finset.sum_range_zero]
  rw [cvector_magnitude, h, Real.sqrt_sq (by norm_num : (0:ℝ) ≤ 5)]

/-- The vector [1e-11] has magnitude 1e-11. -/
lemma magnitude_vTiny : cvector_magnitude vTiny = 1e-11 := by
  have h : (∑ i in Finset.range vTiny.size, vTiny.data i * vTiny.data i)
      = (1e-11 : ℝ) ^ 2 := by
    norm_num [vTiny, Finset.sum_range_one]
  rw [cvector_magnitude, h, Real.sqrt_sq (by norm_num : (0:ℝ) ≤ 1e-11)]

/-- A successful Except value tests ok. -/
lemma exceptIsOk_ok {ε α : Type} (x : α) :
    exceptIsOk (Except.ok x : Except ε α) = true := rfl

/-- A failed Except value tests not ok. -/
lemma exceptIsOk_error {ε α : Type} (e : ε) :
    exceptIsOk (Except.error e : Except ε α) = false := rfl

/-- Claim C1 (amended): incremental_update fails exactly when the
document size differs from u.rows, or the residual norm exceeds epsilon
while the singular-value count differs from u.cols; max_rank is never
validated, so max_rank < 1 raises no error, and epsilon of any sign is
accepted. -/
theorem incremental_update_error_iff (u : CMatrix) (s c : CVector) (mr : ℤ) (ε : ℝ) :
    exceptIsOk (incremental_update u s c mr ε) = false ↔
      (c.size ≠ u.rows ∨ (residual_norm u c > ε ∧ s.size ≠ u.cols)) := by
  by_cases hc : c.size = u.rows
  · by_cases hp : residual_norm u c > ε
    · rw [incremental_update_caseA u s c mr ε hc hp]
      obtain ⟨u1, v1, s1, hsvd, hur, huc, hss⟩ :=
        jacobi_svd_ok (build_k_matrix_with_growth s (project_coeffs u c) (residual_norm u c))
      have hcg : coGramSize
          (build_k_matrix_with_growth s (project_coeffs u c) (residual_norm u c))
          = s.size + 1 := if_pos (le_refl _)
      have hu1r : u1.rows = s.size + 1 := hur.trans hcg
      rw [hsvd]
      simp only [ok_bind]
      rw [cmatrix_extend_column_hat u c]
      simp only [ok_bind]
      by_cases hs : s.size = u.cols
      · rw [cmatrix_multiply_exthat u c u1 (by rw [hu1r, hs])]
        simp only [ok_bind]
        by_cases htr : s1.size > toSizeT mr
        · rw [if_pos htr]
          simp [pure_eq_ok, exceptIsOk_ok, hc, hs, hp]
        · rw [if_neg htr]
          simp [pure_eq_ok, exceptIsOk_ok, hc, hs, hp]
      · rw [cmatrix_multiply_exthat_err u c u1
          (fun heq => hs (Nat.succ_injective (heq.trans hu1r)).symm)]
        simp only [error_bind]
        simp [exceptIsOk_error, hc, hs, hp]
    · rw [incremental_update_caseB u s c mr ε hc hp]
      simp [exceptIsOk_ok, hc, hp]
  · rw [incremental_update_mismatch u s c mr ε hc]
    simp [exceptIsOk_error, hc]

/-- Claim C1, counterexample: with matching dimensions, max_rank = 0 < 1
and epsilon = 1, incremental_update succeeds even though the claim
demands a failure for max_rank < 1. -/
theorem incremental_update_maxrank_zero_ok :
    exceptIsOk (incremental_update uI sI cZ 0 1) = true ∧ (0 : ℤ) < 1 := by
  have hp : ¬ residual_norm uI cZ > 1 := by rw [residual_uI_cZ]; norm_num
  rw [incremental_update_caseB uI sI cZ 0 1 rfl hp]
  exact ⟨rfl, by norm_num⟩

/-- Claim C3: when the document size and singular-value count match and
the residual norm is within epsilon, incremental_update returns the same
u and an element-for-element copy of s of the same size. -/
theorem incremental_update_span_unchanged (u : CMatrix) (s c : CVector) (mr : ℤ)
    (ε : ℝ) (hc : c.size = u.rows) (hs : s.size = u.cols)
    (hp : residual_norm u c ≤ ε) :
    ∃ s2, incremental_update u s c mr ε = Except.ok (u, s2) ∧
      s2.size = s.size ∧ ∀ i, s2.data i = s.data i := by
  have hp' : ¬ residual_norm u c > ε := not_lt.mpr hp
  rw [incremental_update_caseB u s c mr ε hc hp']
  exact ⟨_, rfl, rfl, fun i => rfl⟩

/-- Claim C3, witness at the 1x1 factorization with the document [1]
already in the span. -/
theorem incremental_update_span_unchanged_witness :
    sI.size = uI.rows ∧ sI.size = uI.cols ∧ residual_norm uI sI ≤ 1 ∧
    (∃ s2, incremental_update uI sI sI 3 1 = Except.ok (uI, s2) ∧
      s2.size = sI.size ∧ ∀ i, s2.data i = sI.data i) := by
  have hp : residual_norm uI sI ≤ 1 := by rw [residual_uI_sI]; norm_num
  exact ⟨rfl, rfl, hp, incremental_update_span_unchanged uI sI sI 3 1 rfl rfl hp⟩

/-- Claim C4: from the single column [1,0,0] with singular value [1],
updating with the orthogonal document [0,1,0] and epsilon 1e-6 grows the
factorization to two columns under max_rank 5, and truncates to one
column and one singular value under max_rank 1. -/
theorem incremental_update_rank_growth_cap :
    (∃ ug sg, incremental_update u4 sI c4 5 (1e-6) = Except.ok (ug, sg) ∧
      ug.cols = 2) ∧
    (∃ uc sc, incremental_update u4 sI c4 1 (1e-6) = Except.ok (uc, sc) ∧
      uc.cols = 1 ∧ sc.size = 1) := by
  have hp : residual_norm u4 c4 > 1e-6 := by rw [residual_u4_c4]; norm_num
  obtain ⟨u1, v1, s1, hsvd, hur, huc, hss⟩ :=
    jacobi_svd_ok (build_k_matrix_with_growth sI (project_coeffs u4 c4) (residual_norm u4 c4))
  have hg : gramSize
      (build_k_matrix_with_growth sI (project_coeffs u4 c4) (residual_norm u4 c4))
      = 2 := if_pos (le_refl _)
  have hcg : coGramSize
      (build_k_matrix_with_growth sI (project_coeffs u4 c4) (residual_norm u4 c4))
      = 2 := if_pos (le_refl _)
  have hu1r : u1.rows = 2 := hur.trans hcg
  have hu1c : u1.cols = 2 := huc.trans hg
  have hs1 : s1.size = 2 := hss.trans hg
  constructor
  · rw [incremental_update_caseA u4 sI c4 5 (1e-6) rfl hp, hsvd]
    simp only [ok_bind]
    rw [cmatrix_extend_column_hat u4 c4]
    simp only [ok_bind]
    rw [cmatrix_multiply_exthat u4 c4 u1 (by rw [hu1r]; rfl)]
    simp only [ok_bind]
    rw [hs1, if_neg (by norm_num [toSizeT] : ¬ ((2:ℕ) > toSizeT 5))]
    exact ⟨_, _, rfl, hu1c⟩
  · rw [incremental_update_caseA u4 sI c4 1 (1e-6) rfl hp, hsvd]
    simp only [ok_bind]
    rw [cmatrix_extend_column_hat u4 c4]
    simp only [ok_bind]
    rw [cmatrix_multiply_exthat u4 c4 u1 (by rw [hu1r]; rfl)]
    simp only [ok_bind]
    rw [hs1, if_pos (by norm_num [toSizeT] : (2:ℕ) > toSizeT 1)]
    exact ⟨_, _, rfl, by norm_num [toSizeT], by norm_num [toSizeT]⟩

/-- Claim C9: with a negative max_rank (within the machine int range)
the truncation guard compares against max_rank modulo 2^64, which
exceeds any attainable rank, so a Case-A update succeeds with rank
u.cols + 1 and no truncation and no error. -/
theorem incremental_update_negative_maxrank (u : CMatrix) (s c : CVector) (mr : ℤ)
    (ε : ℝ) (hc : c.size = u.rows) (hs : s.size = u.cols)
    (hp : residual_norm u c > ε) (hmr : mr < 0) (hmrlo : -(2:ℤ)^63 ≤ mr)
    (hsize : s.size + 1 < 2^63) :
    s.size + 1 ≤ toSizeT mr ∧
    ∃ u2 s2, incremental_update u s c mr ε = Except.ok (u2, s2) ∧
      u2.rows = u.rows ∧ u2.cols = u.cols + 1 ∧ s2.size = s.size + 1 := by
  have h64 : (2:ℤ) ^ 64 = 18446744073709551616 := by norm_num
  have h63 : (2:ℤ) ^ 63 = 9223372036854775808 := by norm_num
  have h63n : (2:ℕ) ^ 63 = 9223372036854775808 := by norm_num
  have hts : s.size + 1 ≤ toSizeT mr := by
    unfold toSizeT
    rw [h64]
    rw [h63] at hmrlo
    rw [h63n] at hsize
    omega
  obtain ⟨u1, v1, s1, hsvd, hur, huc, hss⟩ :=
    jacobi_svd_ok (build_k_matrix_with_growth s (project_coeffs u c) (residual_norm u c))
  have hg : gramSize
      (build_k_matrix_with_growth s (project_coeffs u c) (residual_norm u c))
      = s.size + 1 := if_pos (le_refl _)
  have hcg : coGramSize
      (build_k_matrix_with_growth s (project_coeffs u c) (residual_norm u c))
      = s.size + 1 := if_pos (le_refl _)
  have hu1r : u1.rows = s.size + 1 := hur.trans hcg
  have hs1 : s1.size = s.size + 1 := hss.trans hg
  refine ⟨hts, ?_⟩
  rw [incremental_update_caseA u s c mr ε hc hp, hsvd]
  simp only [ok_bind]
  rw [cmatrix_extend_column_hat u c]
  simp only [ok_bind]
  rw [cmatrix_multiply_exthat u c u1 (by rw [hu1r, hs])]
  simp only [ok_bind]
  rw [hs1, if_neg (by omega : ¬ (s.size + 1 > toSizeT mr))]
  refine ⟨_, _, rfl, rfl, ?_, hs1⟩
  exact (huc.trans hg).trans (by rw [hs])

/-- Claim C9, witness at the concrete factorization [1,0,0], [1] with
the orthogonal document [0,1,0] and max_rank = -1. -/
theorem incremental_update_negative_maxrank_witness :
    c4.size = u4.rows ∧ sI.size = u4.cols ∧ residual_norm u4 c4 > 1e-6 ∧
    (-1 : ℤ) < 0 ∧ -(2:ℤ)^63 ≤ -1 ∧ sI.size + 1 < 2^63 ∧
    (sI.size + 1 ≤ toSizeT (-1) ∧
     ∃ u2 s2, incremental_update u4 sI c4 (-1) (1e-6) = Except.ok (u2, s2) ∧
       u2.rows = u4.rows ∧ u2.cols = u4.cols + 1 ∧ s2.size = sI.size + 1) := by
  have hp : residual_norm u4 c4 > 1e-6 := by rw [residual_u4_c4]; norm_num
  exact ⟨rfl, rfl, hp, by norm_num, by norm_num, by norm_num [sI],
    incremental_update_negative_maxrank u4 sI c4 (-1) (1e-6) rfl rfl hp
      (by norm_num) (by norm_num) (by norm_num [sI])⟩

/-- The toOption view of a successful Except result. -/
lemma toOption_ok {ε α : Type} (x : α) :
    (Except.ok x : Except ε α).toOption = some x := rfl

/-- A multiply with agreeing inner dimensions succeeds with the product
entries. -/
lemma cmatrix_multiply_ok_eq (x y : CMatrix) (h : x.cols = y.rows) :
    cmatrix_multiply x y = Except.ok
      { rows := x.rows
        cols := y.cols
        entry := fun i j => ∑ k in Finset.range x.cols, x.entry i k * y.entry k j } := by
  unfold cmatrix_multiply
  rw [if_neg (fun hne => hne h)]

/-- Claim C2 (amended): in the transposed branch (rows < cols) the
returned U has a.cols rows and a.rows columns, obtained from the
recombination source * V * S^(-1) with source the transpose. -/
theorem jacobi_svd_transposed_dims (a : CMatrix) (h : a.rows < a.cols) :
    (jacobi_svd a).toOption.map (fun r => (r.1.rows, r.1.cols)) =
      some (a.cols, a.rows) := by
  obtain ⟨u, v, s, hsvd, hur, huc, hss⟩ := jacobi_svd_ok a
  have hno : ¬ a.cols ≤ a.rows := not_le.mpr h
  rw [hsvd, toOption_ok]
  show some (u.rows, u.cols) = some (a.cols, a.rows)
  rw [hur, huc]
  unfold coGramSize gramSize
  rw [if_neg hno, if_neg hno]

/-- Claim C2, witness on a concrete 1x3 input. -/
theorem jacobi_svd_transposed_dims_witness :
    wideA.rows < wideA.cols ∧
    (jacobi_svd wideA).toOption.map (fun r => (r.1.rows, r.1.cols)) =
      some (3, 1) := by
  have h : wideA.rows < wideA.cols := by norm_num [wideA]
  exact ⟨h, jacobi_svd_transposed_dims wideA h⟩

/-- Claim C2, counterexample: on a 1x3 input the returned U has 3 rows,
not the m = 1 rows of the claim. -/
theorem jacobi_svd_transposed_not_m_rows :
    (jacobi_svd wideA).toOption.map (fun r => r.1.rows) = some 3 ∧
    wideA.rows = 1 ∧ (3 : ℕ) ≠ 1 := by
  obtain ⟨u, v, s, hsvd, hur, huc, hss⟩ := jacobi_svd_ok wideA
  refine ⟨?_, rfl, by norm_num⟩
  rw [hsvd, toOption_ok]
  show some u.rows = some 3
  rw [hur]
  unfold coGramSize
  rw [if_neg (by norm_num [wideA] : ¬ wideA.cols ≤ wideA.rows)]
  rfl

/-- Claim C5: the Jacobi rotation angle is a quarter-turn with the sign
of the numerator when the denominator is within 1e-10 of zero, and the
halved arctangent of the quotient otherwise, where the denominator is
then nonzero. -/
theorem jacobiAngle_formula (num den : ℝ) :
    (|den| < CLASSIFIER_EPSILON →
       (0 ≤ num → jacobiAngle num den = Real.pi / 4) ∧
       (num < 0 → jacobiAngle num den = -(Real.pi / 4))) ∧
    (CLASSIFIER_EPSILON ≤ |den| →
       den ≠ 0 ∧ jacobiAngle num den = Real.arctan (num / den) / 2) := by
  constructor
  · intro hden
    constructor
    · intro hnum
      unfold jacobiAngle
      rw [if_pos hden, if_pos hnum]
    · intro hnum
      unfold jacobiAngle
      rw [if_pos hden, if_neg (not_le.mpr hnum)]
  · intro hden
    have hne : den ≠ 0 := by
      intro h0
      rw [h0] at hden
      norm_num [CLASSIFIER_EPSILON] at hden
    refine ⟨hne, ?_⟩
    unfold jacobiAngle
    rw [if_neg (not_lt.mpr hden)]

/-- Claim C5, witness at numerator 1 and denominator 0. -/
theorem jacobiAngle_formula_witness :
    |(0:ℝ)| < CLASSIFIER_EPSILON ∧ (0:ℝ) ≤ 1 ∧
    jacobiAngle 1 0 = Real.pi / 4 := by
  have hden : |(0:ℝ)| < CLASSIFIER_EPSILON := by norm_num [CLASSIFIER_EPSILON]
  exact ⟨hden, by norm_num, ((jacobiAngle_formula 1 0).1 hden).1 (by norm_num)⟩

/-- The singular-value vector returned by jacobi_svd is exactly the
clamped square root of the final Q diagonal. -/
lemma jacobi_svd_s_eq (a w : CMatrix) (hw : jacobiWork a = Except.ok w) :
    ∃ u v, jacobi_svd a = Except.ok (u, v,
      { size := w.rows
        data := fun i => if 0 < (jacobiFinalQV w).1.entry i i
                         then Real.sqrt ((jacobiFinalQV w).1.entry i i) else 0
        is_col := false }) := by
  have hqv := jacobiFinalQV_dims w
  have hw' := hw
  unfold jacobiWork at hw'
  unfold jacobi_svd
  rw [hw]
  simp only [ok_bind]
  by_cases horient : a.cols ≤ a.rows
  · rw [if_pos horient, cmatrix_multiply_ok_eq (cmatrix_transpose a) a rfl] at hw'
    have hwrows : w.rows = a.cols := by rw [← Except.ok.inj hw']; rfl
    simp only [horient, if_true, cmatrix_multiply, hqv.2.2.1, hqv.2.2.2, hwrows,
      ne_eq, not_true_eq_false, if_false, ok_bind, pure_eq_ok]
    exact ⟨_, _, rfl⟩
  · rw [if_neg horient, cmatrix_multiply_ok_eq a (cmatrix_transpose a) rfl] at hw'
    have hwrows : w.rows = a.rows := by rw [← Except.ok.inj hw']
    simp only [horient, if_false, cmatrix_multiply, cmatrix_transpose, hqv.2.2.1,
      hqv.2.2.2, hwrows, ne_eq, not_true_eq_false, ok_bind, pure_eq_ok]
    exact ⟨_, _, rfl⟩

/-- Claim C6: every singular value returned by the Jacobi solver equals
the square root of the corresponding final diagonal entry when that
entry is positive and zero otherwise, and is therefore non-negative. -/
theorem jacobi_singular_values_clamped (a : CMatrix) (i : ℕ) :
    ∃ w u v s, jacobiWork a = Except.ok w ∧
      jacobi_svd a = Except.ok (u, v, s) ∧
      s.data i = (if 0 < (jacobiFinalQV w).1.entry i i
                  then Real.sqrt ((jacobiFinalQV w).1.entry i i) else 0) ∧
      0 ≤ s.data i := by
  obtain ⟨w, hw, hwr, hwc⟩ := jacobiWork_ok a
  obtain ⟨u, v, hsvd⟩ := jacobi_svd_s_eq a w hw
  refine ⟨w, u, v, _, hw, hsvd, rfl, ?_⟩
  dsimp only
  split
  · exact Real.sqrt_nonneg _
  · exact le_rfl

/-- Claim C7 (amended): above the 1e-10 threshold, normalize divides
each entry by the magnitude, keeps size and orientation, and the result
has magnitude exactly 1 (so within 1e-9 of 1); at or below the
threshold it returns the all-zero vector of the same size and
orientation, which equals the input only when the input is zero. -/
theorem cvector_normalize_spec (v : CVector) :
    (CLASSIFIER_EPSILON < cvector_magnitude v →
       (cvector_normalize v).size = v.size ∧
       (cvector_normalize v).is_col = v.is_col ∧
       (∀ i, i < v.size →
          (cvector_normalize v).data i = v.data i / cvector_magnitude v) ∧
       |cvector_magnitude (cvector_normalize v) - 1| ≤ 1e-9) ∧
    (cvector_magnitude v ≤ CLASSIFIER_EPSILON →
       (cvector_normalize v).size = v.size ∧
       (cvector_normalize v).is_col = v.is_col ∧
       ∀ i, (cvector_normalize v).data i = 0) := by
  constructor
  · intro h
    have hm : ¬ cvector_magnitude v ≤ CLASSIFIER_EPSILON := not_le.mpr h
    have hpos : 0 < cvector_magnitude v :=
      lt_trans (by norm_num [CLASSIFIER_EPSILON]) h
    have hnv : cvector_normalize v =
        { size := v.size
          data := fun i => if i < v.size then v.data i / cvector_magnitude v else 0
          is_col := v.is_col } := by
      simp only [cvector_normalize]
      rw [if_neg hm]
    refine ⟨by rw [hnv], by rw [hnv], ?_, ?_⟩
    · intro i hi
      rw [hnv]
      dsimp only
      rw [if_pos hi]
    · have hS : (0:ℝ) ≤ ∑ i in Finset.range v.size, v.data i * v.data i :=
        Finset.sum_nonneg fun i _ => mul_self_nonneg _
      have hmm : cvector_magnitude v * cvector_magnitude v
          = ∑ i in Finset.range v.size, v.data i * v.data i :=
        Real.mul_self_sqrt hS
      have hSpos : (0:ℝ) < ∑ i in Finset.range v.size, v.data i * v.data i := by
        rw [← hmm]
        exact mul_pos hpos hpos
      have hone : cvector_magnitude (cvector_normalize v) = 1 := by
        have hunf : cvector_magnitude
            { size := v.size
              data := fun i => if i < v.size then v.data i / cvector_magnitude v else 0
              is_col := v.is_col }
            = Real.sqrt (∑ i in Finset.range v.size,
                ((if i < v.size then v.data i / cvector_magnitude v else 0) *
                 (if i < v.size then v.data i / cvector_magnitude v else 0))) := rfl
        rw [hnv, hunf]
        rw [show ∑ i in Finset.range v.size,
              ((if i < v.size then v.data i / cvector_magnitude v else 0) *
               (if i < v.size then v.data i / cvector_magnitude v else 0))
            = ∑ i in Finset.range v.size,
              (v.data i * v.data i) /
                (cvector_magnitude v * cvector_magnitude v) from
          Finset.sum_congr rfl fun i hi => by
            rw [if_pos (Finset.mem_range.mp hi), div_mul_div_comm]]
        rw [← Finset.sum_div, hmm, div_self (ne_of_gt hSpos), Real.sqrt_one]
      rw [hone]
      norm_num
  · intro h
    have hnv : cvector_normalize v =
        { size := v.size, data := fun _ => 0, is_col := v.is_col } := by
      simp only [cvector_normalize]
      rw [if_pos h]
    exact ⟨by rw [hnv], by rw [hnv], fun i => by rw [hnv]⟩

/-- Claim C7, witness at the vector [3,4] of magnitude 5. -/
theorem cvector_normalize_spec_witness :
    CLASSIFIER_EPSILON < cvector_magnitude v34 ∧
    ((cvector_normalize v34).size = v34.size ∧
     (cvector_normalize v34).is_col = v34.is_col ∧
     (∀ i, i < v34.size →
        (cvector_normalize v34).data i = v34.data i / cvector_magnitude v34) ∧
     |cvector_magnitude (cvector_normalize v34) - 1| ≤ 1e-9) := by
  have h : CLASSIFIER_EPSILON < cvector_magnitude v34 := by
    rw [magnitude_v34]
    norm_num [CLASSIFIER_EPSILON]
  exact ⟨h, (cvector_normalize_spec v34).1 h⟩

/-- Claim C7, counterexample: the tiny nonzero vector [1e-11] has
magnitude at most 1e-10, and normalize returns the zero vector, which
differs from the input in entry 0. -/
theorem cvector_normalize_tiny_not_input :
    cvector_magnitude vTiny ≤ CLASSIFIER_EPSILON ∧
    (cvector_normalize vTiny).data 0 = 0 ∧ vTiny.data 0 ≠ 0 := by
  have hm : cvector_magnitude vTiny ≤ CLASSIFIER_EPSILON := by
    rw [magnitude_vTiny]
    norm_num [CLASSIFIER_EPSILON]
  refine ⟨hm, ?_, by norm_num [vTiny]⟩
  simp only [cvector_normalize]
  rw [if_pos hm]

/-- When the head of a bind already failed, the bind fails. -/
lemma exceptIsOk_false_bind {ε α β : Type} (m : Except ε α) (f : α → Except ε β)
    (h : exceptIsOk m = false) : exceptIsOk (m >>= f) = false := by
  cases m with
  | ok x => exact absurd h (by simp [exceptIsOk])
  | error e => rfl

/-- Claim C8: batch projection returns one projected vector per input
(the i-th output is U^T times the i-th input, of size u.cols) when every
input has size u.rows, and fails when any input size differs. -/
theorem cbatch_project_spec (u : CMatrix) (vs : List CVector) :
    ((∀ r ∈ vs, r.size = u.rows) →
       cbatch_project u vs = Except.ok (vs.map fun r => project_coeffs u r) ∧
       ∀ r ∈ vs, (project_coeffs u r).size = u.cols) ∧
    ((∃ r ∈ vs, r.size ≠ u.rows) → exceptIsOk (cbatch_project u vs) = false) := by
  constructor
  · induction vs with
    | nil => intro _; exact ⟨rfl, fun r hr => absurd hr (List.not_mem_nil r)⟩
    | cons x xs ih =>
      intro hall
      have hx : x.size = u.rows := hall x (List.mem_cons_self x xs)
      have ihh := ih fun r hr => hall r (List.mem_cons_of_mem x hr)
      refine ⟨?_, fun r _ => rfl⟩
      have hmap := ihh.1
      unfold cbatch_project at hmap ⊢
      simp only [List.mapM_cons]
      rw [if_neg (show ¬ x.size ≠ u.rows from fun hne => hne hx)]
      simp only [ok_bind]
      rw [hmap]
      simp only [ok_bind]
      rfl
  · induction vs with
    | nil =>
      rintro ⟨r, hr, _⟩
      exact absurd hr (List.not_mem_nil r)
    | cons x xs ih =>
      rintro ⟨r, hr, hne⟩
      unfold cbatch_project at ih ⊢
      simp only [List.mapM_cons]
      by_cases hx : x.size = u.rows
      · rw [if_neg (show ¬ x.size ≠ u.rows from fun h2 => h2 hx)]
        simp only [ok_bind]
        rcases List.mem_cons.mp hr with hrx | hrs
        · exact absurd hx (hrx ▸ hne)
        · exact exceptIsOk_false_bind _ _ (ih ⟨r, hrs, hne⟩)
      · rw [if_pos hx]
        rfl

/-- Claim C8, witness: the 2x2 identity projects [3,4] and [5,6] to
themselves coordinate-wise. -/
theorem cbatch_project_spec_witness :
    (∀ r ∈ [v34, v56], r.size = u8.rows) ∧
    (cbatch_project u8 [v34, v56] =
       Except.ok ([v34, v56].map fun r => project_coeffs u8 r) ∧
     ∀ r ∈ [v34, v56], (project_coeffs u8 r).size = u8.cols) := by
  have h : ∀ r ∈ [v34, v56], r.size = u8.rows := by
    intro r hr
    rcases List.mem_cons.mp hr with h1 | h2
    · rw [h1]; rfl
    · rcases List.mem_cons.mp h2 with h3 | h4
      · rw [h3]; rfl
      · exact absurd h4 (List.not_mem_nil r)
  exact ⟨h, (cbatch_project_spec u8 [v34, v56]).1 h⟩

/-- Claim C10: batch projection of an empty list returns the empty list
for every matrix, without reading it. -/
theorem cbatch_project_empty (u : CMatrix) :
    cbatch_project u [] = Except.ok [] := rfl
